import Mathlib

/-!
Verification of the Cordy interpreter's specified semantics against a shallow
embedding of its source.

The repository snapshot contains two generations of the interpreter:

* an early virtual machine whose dispatch loop inlines every operator
  (`src/vm/mod.rs`), together with the pure operator functions of
  `src/vm/operator.rs`;
* the later `cordy-sys` core: the expression optimizer
  (`src/compiler/parser/optimizer.rs`), the collection and string library
  (`cordy-sys/src/core/collections.rs`, `cordy-sys/src/core/strings.rs`), and
  the legacy list library (`src/stdlib/lib_list.rs`).

Every definition below is translated from the named source location; a
definition whose doc comment starts with "Modelled from the spec:" stands for
code of the repository that is not part of the staged sources (only its
callers are), and follows the specification's words instead.

Machine integers (`i64`) are modelled as unbounded `Int`; none of the
properties checked here depends on wrap-around behaviour.  Rust's `/` and `%`
on `i64` (truncation towards zero) are `Int.tdiv` and `Int.tmod`; Rust's
`div_euclid` and `rem_euclid` are `Int.ediv` and `Int.emod`.
-/

namespace Cordy

/-- Opcodes of the early VM (`src/vm/mod.rs`, `enum Opcode`), restricted to
the unary and binary operator tags that the operator functions and the
dispatch loop embed in their `TypeError` payloads. -/
inductive Opcode
  | UnarySub
  | UnaryLogicalNot
  | UnaryBitwiseNot
  | OpMul
  | OpDiv
  | OpMod
  | OpPow
  | OpAdd
  | OpSub
  | OpLeftShift
  | OpRightShift
  | OpBitwiseAnd
  | OpBitwiseOr
  | OpBitwiseXor
deriving DecidableEq, Repr

/-- Runtime values of the early VM (`src/vm/value.rs` is not part of the
staged sources; the variants used by `src/vm/operator.rs` and the dispatch
loop are `Nil`, `Bool`, `Int`, `Str` and `List`).  The shared mutable
interior of `List` is modelled functionally: an operation that mutates a list
returns the updated list. -/
inductive Value
  | nil
  | bool (b : Bool)
  | int (i : Int)
  | str (s : String)
  | list (xs : List Value)
deriving Repr

/-- Runtime error payloads (`src/vm/mod.rs`, `enum RuntimeErrorType`, plus
the slice errors of `src/stdlib/lib_list.rs`), restricted to the variants the
embedded functions construct. -/
inductive RErr
  | typeErrorUnaryOp (op : Opcode) (v : Value)
  | typeErrorBinaryOp (op : Opcode) (l r : Value)
  | typeErrorCannotSlice (v : Value)
  | typeErrorSliceArgMustBeInt (arg : String) (v : Value)
  | sliceStepZero
deriving Repr

mutual

/-- Modelled from the spec: `Value::as_str` of the early tree's `value.rs`
(not under the staged sources), the string coercion used by `+` on strings:
scalars render naturally, lists render bracketed and comma separated. -/
def Value.as_str : Value → String
  | .nil => "nil"
  | .bool b => if b then "true" else "false"
  | .int i => toString i
  | .str s => s
  | .list xs => "[" ++ asStrJoin xs ++ "]"

/-- Comma-separated rendering of a list's elements, used by `Value.as_str`. -/
def asStrJoin : List Value → String
  | [] => ""
  | [v] => v.as_str
  | v :: vs => v.as_str ++ ", " ++ asStrJoin vs

end

/-- Rust's `str::repeat`: the string concatenated with itself `n` times. -/
def strRepeat (s : String) (n : Nat) : String :=
  String.join (List.replicate n s)

/-- `unary_sub` of `src/vm/operator.rs` lines 9-14. -/
def unary_sub (a1 : Value) : Except RErr Value :=
  match a1 with
  | .int i1 => .ok (.int (-i1))
  | v => .error (.typeErrorUnaryOp .UnarySub v)

/-- `unary_logical_not` of `src/vm/operator.rs` lines 16-21. -/
def unary_logical_not (a1 : Value) : Except RErr Value :=
  match a1 with
  | .bool b1 => .ok (.bool (!b1))
  | v => .error (.typeErrorUnaryOp .UnaryLogicalNot v)

/-- `unary_bitwise_not` of `src/vm/operator.rs` lines 23-28: Rust `!` on
`i64` is two's-complement bitwise negation, `-i - 1`. -/
def unary_bitwise_not (a1 : Value) : Except RErr Value :=
  match a1 with
  | .int i1 => .ok (.int (-i1 - 1))
  | v => .error (.typeErrorUnaryOp .UnaryBitwiseNot v)

/-- `binary_mul` of `src/vm/operator.rs` lines 31-38.  A guard that fails in
the Rust `match` falls through to the error arm with the same operands. -/
def binary_mul (a1 a2 : Value) : Except RErr Value :=
  match a1, a2 with
  | .int i1, .int i2 => .ok (.int (i1 * i2))
  | .str s1, .int i2 =>
      if 0 < i2 then .ok (.str (strRepeat s1 i2.toNat))
      else .error (.typeErrorBinaryOp .OpMul (.str s1) (.int i2))
  | .int i1, .str s2 =>
      if 0 < i1 then .ok (.str (strRepeat s2 i1.toNat))
      else .error (.typeErrorBinaryOp .OpMul (.int i1) (.str s2))
  | l, r => .error (.typeErrorBinaryOp .OpMul l r)

/-- `binary_div` of `src/vm/operator.rs` lines 40-47.  Its doc comment
promises `sign(a * b) * floor(abs(a) / abs(b))`; the body computes
`-(-i1).div_euclid(i2)` for a negative divisor and `i1.div_euclid(i2)`
otherwise (`div_euclid` is `Int.ediv`). -/
def binary_div (a1 a2 : Value) : Except RErr Value :=
  match a1, a2 with
  | .int i1, .int i2 =>
      if i2 ≠ 0 then
        .ok (.int (if i2 < 0 then -(Int.ediv (-i1) i2) else Int.ediv i1 i2))
      else .error (.typeErrorBinaryOp .OpDiv (.int i1) (.int i2))
  | l, r => .error (.typeErrorBinaryOp .OpDiv l r)

/-- `binary_mod` of `src/vm/operator.rs` lines 49-57: defined only for a
positive modulus, as `i1.rem_euclid(i2)` (`Int.emod`). -/
def binary_mod (a1 a2 : Value) : Except RErr Value :=
  match a1, a2 with
  | .int i1, .int i2 =>
      if 0 < i2 then .ok (.int (Int.emod i1 i2))
      else .error (.typeErrorBinaryOp .OpMod (.int i1) (.int i2))
  | l, r => .error (.typeErrorBinaryOp .OpMod l r)

/-- `binary_pow` of `src/vm/operator.rs` lines 59-64.  The source's error arm
really carries the `OpMod` tag (a quirk kept faithfully). -/
def binary_pow (a1 a2 : Value) : Except RErr Value :=
  match a1, a2 with
  | .int i1, .int i2 =>
      if 0 < i2 then .ok (.int (i1 ^ i2.toNat))
      else .error (.typeErrorBinaryOp .OpMod (.int i1) (.int i2))
  | l, r => .error (.typeErrorBinaryOp .OpMod l r)

/-- `binary_add` of `src/vm/operator.rs` lines 83-98: integer addition, list
concatenation, and string coercion of either operand. -/
def binary_add (a1 a2 : Value) : Except RErr Value :=
  match a1, a2 with
  | .int i1, .int i2 => .ok (.int (i1 + i2))
  | .list l1, .list l2 => .ok (.list (l1 ++ l2))
  | .str s1, r => .ok (.str (s1 ++ r.as_str))
  | l, .str s2 => .ok (.str (l.as_str ++ s2))
  | l, r => .error (.typeErrorBinaryOp .OpAdd l r)

/-- `binary_sub` of `src/vm/operator.rs` lines 100-105: defined on every pair
of integers, with no guard on the right operand. -/
def binary_sub (a1 a2 : Value) : Except RErr Value :=
  match a1, a2 with
  | .int i1, .int i2 => .ok (.int (i1 - i2))
  | l, r => .error (.typeErrorBinaryOp .OpSub l r)

/-- Rust `i64` left shift by a nonnegative amount: multiplication by a power
of two. -/
def shlInt (a : Int) (n : Nat) : Int := a * 2 ^ n

/-- Rust `i64` arithmetic right shift: floor division by a power of two
(`Int.ediv` agrees with floor division for a positive divisor). -/
def shrInt (a : Int) (n : Nat) : Int := Int.ediv a (2 ^ n)

/-- `binary_left_shift` of `src/vm/operator.rs` lines 107-117: a negative
shift amount shifts the other way; a list left-hand side pushes to the
back. -/
def binary_left_shift (a1 a2 : Value) : Except RErr Value :=
  match a1, a2 with
  | .int i1, .int i2 =>
      .ok (.int (if 0 ≤ i2 then shlInt i1 i2.toNat else shrInt i1 (-i2).toNat))
  | .list xs, r => .ok (.list (xs ++ [r]))
  | l, r => .error (.typeErrorBinaryOp .OpLeftShift l r)

/-- `binary_right_shift` of `src/vm/operator.rs` lines 119-129: a negative
shift amount shifts the other way; a list right-hand side pushes to the
front. -/
def binary_right_shift (a1 a2 : Value) : Except RErr Value :=
  match a1, a2 with
  | .int i1, .int i2 =>
      .ok (.int (if 0 ≤ i2 then shrInt i1 i2.toNat else shlInt i1 (-i2).toNat))
  | l, .list rs => .ok (.list (l :: rs))
  | l, r => .error (.typeErrorBinaryOp .OpRightShift l r)

/-- `binary_bitwise_and` of `src/vm/operator.rs` lines 168-173. -/
def binary_bitwise_and (a1 a2 : Value) : Except RErr Value :=
  match a1, a2 with
  | .int i1, .int i2 => .ok (.int (Int.land i1 i2))
  | l, r => .error (.typeErrorBinaryOp .OpBitwiseAnd l r)

/-- `binary_bitwise_or` of `src/vm/operator.rs` lines 175-180.  The source's
error arm carries the `OpBitwiseAnd` tag (kept faithfully). -/
def binary_bitwise_or (a1 a2 : Value) : Except RErr Value :=
  match a1, a2 with
  | .int i1, .int i2 => .ok (.int (Int.lor i1 i2))
  | l, r => .error (.typeErrorBinaryOp .OpBitwiseAnd l r)

/-- `binary_bitwise_xor` of `src/vm/operator.rs` lines 182-187.  The source's
error arm carries the `OpBitwiseAnd` tag (kept faithfully). -/
def binary_bitwise_xor (a1 a2 : Value) : Except RErr Value :=
  match a1, a2 with
  | .int i1, .int i2 => .ok (.int (Int.xor i1 i2))
  | l, r => .error (.typeErrorBinaryOp .OpBitwiseAnd l r)

/-! The inline operator arms of the early VM's dispatch loop
(`VirtualMachine::run` of `src/vm/mod.rs`).  Each `vmOp...` function is the
body of one `match (a1, a2)` arm, applied to the two operands popped off the
stack (`a2` popped first). -/

/-- The `OpMul` arm of `VirtualMachine::run`, `src/vm/mod.rs` lines 250-259. -/
def vmOpMul (a1 a2 : Value) : Except RErr Value :=
  match a1, a2 with
  | .int i1, .int i2 => .ok (.int (i1 * i2))
  | .str s1, .int i2 =>
      if 0 < i2 then .ok (.str (strRepeat s1 i2.toNat))
      else .error (.typeErrorBinaryOp .OpMul (.str s1) (.int i2))
  | .int i1, .str s2 =>
      if 0 < i1 then .ok (.str (strRepeat s2 i1.toNat))
      else .error (.typeErrorBinaryOp .OpMul (.int i1) (.str s2))
  | l, r => .error (.typeErrorBinaryOp .OpMul l r)

/-- The `OpDiv` arm of `VirtualMachine::run`, `src/vm/mod.rs` lines 261-269:
Rust's `i1 / i2` on `i64`, truncation towards zero (`Int.tdiv`), guarded by
`i2 != 0`. -/
def vmOpDiv (a1 a2 : Value) : Except RErr Value :=
  match a1, a2 with
  | .int i1, .int i2 =>
      if i2 ≠ 0 then .ok (.int (Int.tdiv i1 i2))
      else .error (.typeErrorBinaryOp .OpDiv (.int i1) (.int i2))
  | l, r => .error (.typeErrorBinaryOp .OpDiv l r)

/-- The `OpMod` arm of `VirtualMachine::run`, `src/vm/mod.rs` lines 270-278:
Rust's `i1 % i2` on `i64`, the truncated remainder (`Int.tmod`), guarded only
by `i2 != 0`. -/
def vmOpMod (a1 a2 : Value) : Except RErr Value :=
  match a1, a2 with
  | .int i1, .int i2 =>
      if i2 ≠ 0 then .ok (.int (Int.tmod i1 i2))
      else .error (.typeErrorBinaryOp .OpMod (.int i1) (.int i2))
  | l, r => .error (.typeErrorBinaryOp .OpMod l r)

/-- The `OpAdd` arm of `VirtualMachine::run`, `src/vm/mod.rs` lines 307-317:
unlike `binary_add`, it has no list-concatenation arm. -/
def vmOpAdd (a1 a2 : Value) : Except RErr Value :=
  match a1, a2 with
  | .int i1, .int i2 => .ok (.int (i1 + i2))
  | .str s1, r => .ok (.str (s1 ++ r.as_str))
  | l, .str s2 => .ok (.str (l.as_str ++ s2))
  | l, r => .error (.typeErrorBinaryOp .OpAdd l r)

/-- The `OpSub` arm of `VirtualMachine::run`, `src/vm/mod.rs` lines 318-326.
The source's integer arm carries the guard `if i2 > 0`, so subtracting a
non-positive integer falls through to the error arm. -/
def vmOpSub (a1 a2 : Value) : Except RErr Value :=
  match a1, a2 with
  | .int i1, .int i2 =>
      if 0 < i2 then .ok (.int (i1 - i2))
      else .error (.typeErrorBinaryOp .OpSub (.int i1) (.int i2))
  | l, r => .error (.typeErrorBinaryOp .OpSub l r)

example : binary_div (.int (-5)) (.int 3) = .ok (.int (-2)) := rfl
example : binary_div (.int (-5)) (.int (-3)) = .ok (.int 1) := rfl
example : binary_div (.int 2) (.int (-3)) = .ok (.int (-1)) := rfl
example : vmOpDiv (.int (-5)) (.int 3) = .ok (.int (-1)) := rfl
example : binary_mod (.int (-5)) (.int 3) = .ok (.int 1) := rfl
example : vmOpMod (.int (-5)) (.int 3) = .ok (.int (-2)) := rfl

/-! General characterizations of the two division semantics present in the
sources.  `Int.tdiv` (the VM's inline `/`) is exactly the specification's
"sign applied externally to the magnitude quotient"; `binary_div` is floor
division instead. -/

/-- Rust's truncating `i64` division equals the sign of the product times the
magnitude quotient: the formula of spec section 4.1 and of the doc comment
above `binary_div`. -/
theorem tdiv_sign_magnitude (a b : Int) :
    Int.tdiv a b = (a * b).sign * ((a.natAbs / b.natAbs : Nat) : Int) := by
  rw [Int.sign_mul]
  rcases a with (_ | m) | m <;> rcases b with (_ | n) | n <;>
    simp [Int.tdiv, Int.sign, Int.natAbs]

/-- The VM's `OpDiv` arm satisfies the specification's division contract:
for a nonzero divisor it returns `sign(a*b) * (|a| / |b|)`, and for a zero
divisor it raises `TypeErrorBinaryOp`. -/
theorem vmOpDiv_spec (a b : Int) :
    vmOpDiv (.int a) (.int b) =
      if b = 0 then .error (.typeErrorBinaryOp .OpDiv (.int a) (.int b))
      else .ok (.int ((a * b).sign * ((a.natAbs / b.natAbs : Nat) : Int))) := by
  unfold vmOpDiv
  by_cases h : b = 0 <;> simp [h, tdiv_sign_magnitude]

/-- For a negative divisor, negating the Euclidean quotient of the negated
dividend is exactly floor division: the identity `binary_div`'s negative
branch computes. -/
theorem neg_ediv_negSucc_eq_fdiv (a : Int) (n : Nat) :
    -((-a).ediv (Int.negSucc n)) = Int.fdiv a (Int.negSucc n) := by
  rcases a with (_ | m) | m
  · simp [Int.ediv, Int.fdiv]
  · rfl
  · show -((Int.ofNat (m + 1)).ediv (Int.negSucc n)) = _
    simp [Int.ediv, Int.fdiv]

/-- The operator-module division is floor division: `binary_div` returns
`Int.fdiv` of its operands whenever the divisor is nonzero. -/
theorem binary_div_is_floor (a b : Int) :
    binary_div (.int a) (.int b) =
      if b = 0 then .error (.typeErrorBinaryOp .OpDiv (.int a) (.int b))
      else .ok (.int (Int.fdiv a b)) := by
  unfold binary_div
  rcases lt_trichotomy b 0 with h | h | h
  · obtain ⟨n, rfl⟩ := Int.eq_negSucc_of_lt_zero h
    simp [h.ne, h, neg_ediv_negSucc_eq_fdiv]
  · simp [h]
  · have hne : b ≠ 0 := h.ne.symm
    have hnlt : ¬ b < 0 := by omega
    simp only [ne_eq, hne, not_false_eq_true, if_true, if_neg hne, if_neg hnlt]
    rw [show Int.ediv a b = Int.fdiv a b from (Int.fdiv_eq_ediv a h.le).symm]
    simp

/-- `binary_mod` realizes the specification's modulo contract: for `b > 0` it
returns `a.rem_euclid(b)`, which lies in `[0, b)` and complements the floor
quotient of `binary_div`; for `b ≤ 0` it raises `TypeErrorBinaryOp`. -/
theorem binary_mod_spec (a b : Int) (h : 0 < b) :
    binary_mod (.int a) (.int b) = .ok (.int (Int.emod a b)) ∧
      0 ≤ Int.emod a b ∧ Int.emod a b < b ∧
      (Int.ediv a b) * b + Int.emod a b = a := by
  refine ⟨by simp [binary_mod, h], Int.emod_nonneg a h.ne.symm,
    Int.emod_lt_of_pos a h, ?_⟩
  rw [mul_comm]
  exact Int.ediv_add_emod a b

/-- Divergence witness used by the records on integer division: the two
staged implementations of `/` disagree on `(-3) / 2`. -/
theorem div_semantics_disagree :
    binary_div (.int (-3)) (.int 2) = .ok (.int (-2)) ∧
      vmOpDiv (.int (-3)) (.int 2) = .ok (.int (-1)) := ⟨rfl, rfl⟩

/-! Claim theorems on the integer division and modulo semantics. -/

/-- C1: the specification defines `a / b` as `sign(a*b) * floor(|a| / |b|)`
(so `-3 / 2 == -1`), which is what the VM's inline `OpDiv` computes and what
`binary_div`'s own doc comment promises, but `binary_div`'s body computes
floor division: at `a = -3, b = 2` it returns `Int(-2)` instead of the
specified `Int(-1)`. -/
theorem C1_binary_div_failing_input :
    binary_div (.int (-3)) (.int 2) = .ok (.int (-2)) ∧
      vmOpDiv (.int (-3)) (.int 2) = .ok (.int (-1)) ∧
      Int.sign ((-3) * 2) * (((-3 : Int).natAbs / (2 : Int).natAbs : Nat) : Int) = -1 :=
  ⟨rfl, rfl, rfl⟩

/-- C2: the specification defines `a % b` as `a.rem_euclid(b)` for `b > 0`
and an error for `b ≤ 0`, which is what `binary_mod` computes, but the VM's
inline `OpMod` computes Rust's truncated `%` guarded only by `b != 0`: at
`a = -5, b = 3` it returns `Int(-2)` instead of the specified `Int(1)`, and
at `a = 5, b = -3` it returns `Int(2)` instead of raising. -/
theorem C2_vm_mod_failing_input :
    binary_mod (.int (-5)) (.int 3) = .ok (.int 1) ∧
      vmOpMod (.int (-5)) (.int 3) = .ok (.int (-2)) ∧
      binary_mod (.int 5) (.int (-3)) =
        .error (.typeErrorBinaryOp .OpMod (.int 5) (.int (-3))) ∧
      vmOpMod (.int 5) (.int (-3)) = .ok (.int 2) :=
  ⟨rfl, rfl, rfl, rfl⟩

/-- C4: the pure operator functions of `operator.rs` and the VM dispatch
loop's inline implementations disagree on integer operands.  `OpSub` carries
a stray `if i2 > 0` guard, so the VM raises on `5 - 0` where `binary_sub`
returns `Int(5)`; `OpDiv` truncates where `binary_div` floors (`7 / -2`);
and `OpMod` is the truncated remainder accepting negative moduli where
`binary_mod` is the Euclidean remainder requiring a positive one
(`-7 % 4`). -/
theorem C4_operator_vm_disagreement :
    binary_sub (.int 5) (.int 0) = .ok (.int 5) ∧
      vmOpSub (.int 5) (.int 0) =
        .error (.typeErrorBinaryOp .OpSub (.int 5) (.int 0)) ∧
      binary_div (.int 7) (.int (-2)) = .ok (.int (-4)) ∧
      vmOpDiv (.int 7) (.int (-2)) = .ok (.int (-3)) ∧
      binary_mod (.int (-7)) (.int 4) = .ok (.int 1) ∧
      vmOpMod (.int (-7)) (.int 4) = .ok (.int (-3)) :=
  ⟨rfl, rfl, rfl, rfl, rfl, rfl⟩

/-- C10: the specified symmetry `(-a) / b == a / (-b) == -(a / b)` holds for
the VM's truncating `OpDiv` but fails for `binary_div`'s floor division: at
`a = 7, b = 2`, `binary_div` gives `(-7)/2 = 7/(-2) = -4` while
`-(7/2) = -3`. -/
theorem C10_division_symmetry_failing_input :
    binary_div (.int (-7)) (.int 2) = .ok (.int (-4)) ∧
      binary_div (.int 7) (.int (-2)) = .ok (.int (-4)) ∧
      binary_div (.int 7) (.int 2) = .ok (.int 3) ∧
      (Except.ok (Value.int (-4)) ≠ (.ok (.int (-(3))) : Except RErr Value)) ∧
      vmOpDiv (.int (-7)) (.int 2) = .ok (.int (-3)) ∧
      vmOpDiv (.int 7) (.int (-2)) = .ok (.int (-3)) ∧
      vmOpDiv (.int 7) (.int 2) = .ok (.int 3) :=
  ⟨rfl, rfl, rfl, by simp, rfl, rfl, rfl⟩

/-! Embedding of the later `cordy-sys` core.  Its runtime value type
(`ValuePtr`) and error type (`RuntimeError`) are declared outside the staged
sources; the variants below are the ones the staged library code constructs
or inspects. -/

/-- The unary operator tags of the later tree (`vm::operator::UnaryOp`, not
under the staged sources; modelled from the spec's operator list). -/
inductive UnaryOp
  | Neg
  | LogicalNot
  | BitwiseNot
deriving DecidableEq, Repr

/-- The binary operator tags of the later tree (`vm::operator::BinaryOp`,
not under the staged sources; modelled from the spec's operator list,
restricted to the operators the embedded `apply` covers). -/
inductive BinaryOp
  | Add
  | Sub
  | Mul
  | Div
  | Mod
  | Pow
  | And
  | Or
deriving DecidableEq, Repr

/-- Scalar runtime values of the later tree: exactly the variants
`Expr::as_constant` of `src/compiler/parser/optimizer.rs` folds (`Nil`,
`Bool`, `Int`, `Complex`, `Str`). -/
inductive CValue
  | nil
  | bool (b : Bool)
  | int (n : Int)
  | complex (re im : Int)
  | str (s : String)
deriving DecidableEq, Repr

/-- Runtime error variants of the later tree (`vm::RuntimeError`, declared
outside the staged sources), restricted to the ones the staged code
constructs.  `fuelExhausted` is an artifact of the fuel-based embedding of
the string formatter's loop and is unreachable for adequate fuel. -/
inductive CErr
  | typeErrorArgMustBeInt (v : CValue)
  | typeErrorUnaryOp (op : UnaryOp) (v : CValue)
  | typeErrorBinaryOp (op : BinaryOp) (l r : CValue)
  | valueErrorStepCannotBeZero
  | valueErrorValueMustBeNonEmpty
  | valueErrorRecursiveHash
  | valueErrorInvalidFormatCharacter (c : Option Char)
  | valueErrorNotAllArgumentsUsed (v : CValue)
  | valueErrorMissingRequiredArgument
  | fuelExhausted
  | callUnsupported
deriving DecidableEq, Repr

/-- Modelled from the spec: `ValuePtr::check_int` (not under the staged
sources): an `Int` unwraps, any other value raises the
argument-must-be-an-int type error. -/
def check_int (v : CValue) : Except CErr Int :=
  match v with
  | .int n => .ok n
  | v => .error (.typeErrorArgMustBeInt v)

/-- Modelled from the spec: `ValuePtr::to_str` (not under the staged
sources), the plain string rendering used by `%s` formatting and string
coercion: scalars render naturally. -/
def CValue.to_str : CValue → String
  | .nil => "nil"
  | .bool b => if b then "true" else "false"
  | .int n => toString n
  | .complex re im => toString re ++ "+" ++ toString im ++ "i"
  | .str s => s

/-! The `sum`, `min` and `max` library functions of
`cordy-sys/src/core/collections.rs` (lines 149-159, 185-187, 249-255). -/

/-- The accumulator loop of `sum` (`collections.rs` lines 149-155): starting
from `0`, each element is checked to be an `int` and added; an empty iterator
therefore yields `Ok(Int(0))`. -/
def csumGo (acc : Int) : List CValue → Except CErr CValue
  | [] => .ok (.int acc)
  | v :: vs => do
      let n ← check_int v
      csumGo (acc + n) vs

/-- `sum` of `collections.rs` lines 149-155. -/
def csum (args : List CValue) : Except CErr CValue := csumGo 0 args

/-- `non_empty` of `collections.rs` lines 249-255: unwraps a present value
and raises `ValueErrorValueMustBeNonEmpty` on `None`. -/
def non_empty (it : Option CValue) : Except CErr CValue :=
  match it with
  | some v => .ok v
  | none => .error .valueErrorValueMustBeNonEmpty

/-- Type rank used by the total order on values. -/
def crank : CValue → Nat
  | .nil => 0
  | .bool _ => 1
  | .int _ => 2
  | .complex _ _ => 3
  | .str _ => 4

/-- Modelled from the spec: the strict part of the total `Ord` on `ValuePtr`
(not under the staged sources) that `Iterator::min` and `Iterator::max`
consult: values of the same type compare naturally (spec section 3.2),
values of different types by type rank. -/
def vlt (a b : CValue) : Bool :=
  if crank a ≠ crank b then decide (crank a < crank b)
  else
    match a, b with
    | .bool x, .bool y => !x && y
    | .int x, .int y => decide (x < y)
    | .complex xr xi, .complex yr yi =>
        decide (xr < yr) || (decide (xr = yr) && decide (xi < yi))
    | .str x, .str y => decide (x < y)
    | _, _ => false

/-- Rust's `Iterator::min`: the first minimal element under the total
order. -/
def minimumModel (l : List CValue) : Option CValue :=
  match l with
  | [] => none
  | x :: xs => some (xs.foldl (fun acc v => if vlt v acc then v else acc) x)

/-- Rust's `Iterator::max`: the last maximal element under the total
order. -/
def maximumModel (l : List CValue) : Option CValue :=
  match l with
  | [] => none
  | x :: xs => some (xs.foldl (fun acc v => if vlt acc v then v else acc) x)

/-- `min` of `collections.rs` lines 157-159: `non_empty(args.min())`. -/
def cmin (args : List CValue) : Except CErr CValue := non_empty (minimumModel args)

/-- `max` of `collections.rs` lines 185-187: `non_empty(args.max())`. -/
def cmax (args : List CValue) : Except CErr CValue := non_empty (maximumModel args)

/-- Whether a value is an `Int`. -/
def isIntV : CValue → Bool
  | .int _ => true
  | _ => false

/-- Whether every element of a list is an `Int`. -/
def allInt (l : List CValue) : Bool := l.all isIntV

/-- Whether a library call returned an `Int`. -/
def returnsInt (r : Except CErr CValue) : Bool :=
  match r with
  | .ok (.int _) => true
  | _ => false

theorem csumGo_allInt (l : List CValue) :
    ∀ acc : Int, allInt l = true → ∃ n, csumGo acc l = .ok (.int n) := by
  induction l with
  | nil => exact fun acc _ => ⟨acc, rfl⟩
  | cons v vs ih =>
      intro acc h
      simp only [allInt, List.all_cons, Bool.and_eq_true] at h
      obtain ⟨hv, hvs⟩ := h
      match v, hv with
      | .int m, _ =>
          simpa [csumGo, check_int] using ih (acc + m) hvs

theorem foldl_min_int (xs : List CValue) :
    ∀ acc : CValue, allInt xs = true → isIntV acc = true →
      isIntV (xs.foldl (fun acc v => if vlt v acc then v else acc) acc) = true := by
  induction xs with
  | nil => exact fun _ _ h => h
  | cons v vs ih =>
      intro acc h hacc
      simp only [allInt, List.all_cons, Bool.and_eq_true] at h
      simp only [List.foldl_cons]
      cases hc : vlt v acc with
      | true => simpa [hc] using ih v (by simpa [allInt] using h.2) h.1
      | false => simpa [hc] using ih acc (by simpa [allInt] using h.2) hacc

theorem foldl_max_int (xs : List CValue) :
    ∀ acc : CValue, allInt xs = true → isIntV acc = true →
      isIntV (xs.foldl (fun acc v => if vlt acc v then v else acc) acc) = true := by
  induction xs with
  | nil => exact fun _ _ h => h
  | cons v vs ih =>
      intro acc h hacc
      simp only [allInt, List.all_cons, Bool.and_eq_true] at h
      simp only [List.foldl_cons]
      cases hc : vlt acc v with
      | true => simpa [hc] using ih v (by simpa [allInt] using h.2) h.1
      | false => simpa [hc] using ih acc (by simpa [allInt] using h.2) hacc

/-- C9 (counterexample): `sum` applied to an empty iterable does not raise;
its accumulator loop returns `Ok(Int(0))`. -/
theorem C9_sum_empty_counterexample : csum ([] : List CValue) = .ok (.int 0) := rfl

/-- C9 (amended): `min` and `max` raise `ValueErrorValueMustBeNonEmpty` on an
empty iterable, `sum` of an empty iterable returns `Int(0)`, and on non-empty
all-int input each of the three returns an int. -/
theorem C9_amended (l : List CValue) (h1 : l ≠ []) (h2 : allInt l = true) :
    csum ([] : List CValue) = .ok (.int 0) ∧
      cmin ([] : List CValue) = .error .valueErrorValueMustBeNonEmpty ∧
      cmax ([] : List CValue) = .error .valueErrorValueMustBeNonEmpty ∧
      returnsInt (csum l) = true ∧
      returnsInt (cmin l) = true ∧
      returnsInt (cmax l) = true := by
  refine ⟨rfl, rfl, rfl, ?_, ?_, ?_⟩
  · obtain ⟨n, hn⟩ := csumGo_allInt l 0 h2
    simp [csum, hn, returnsInt]
  · match l, h1 with
    | x :: xs, _ =>
        simp only [allInt, List.all_cons, Bool.and_eq_true] at h2
        have := foldl_min_int xs x (by simp [allInt, h2.2]) h2.1
        simp only [cmin, minimumModel, non_empty]
        revert this
        cases xs.foldl (fun acc v => if vlt v acc then v else acc) x <;>
          simp [isIntV, returnsInt]
  · match l, h1 with
    | x :: xs, _ =>
        simp only [allInt, List.all_cons, Bool.and_eq_true] at h2
        have := foldl_max_int xs x (by simp [allInt, h2.2]) h2.1
        simp only [cmax, maximumModel, non_empty]
        revert this
        cases xs.foldl (fun acc v => if vlt acc v then v else acc) x <;>
          simp [isIntV, returnsInt]

/-- C9 (witness): the amended claim at the concrete list `[3, 1]`. -/
theorem C9_amended_witness :
    csum ([] : List CValue) = .ok (.int 0) ∧
      cmin ([] : List CValue) = .error .valueErrorValueMustBeNonEmpty ∧
      cmax ([] : List CValue) = .error .valueErrorValueMustBeNonEmpty ∧
      returnsInt (csum [CValue.int 3, CValue.int 1]) = true ∧
      returnsInt (cmin [CValue.int 3, CValue.int 1]) = true ∧
      returnsInt (cmax [CValue.int 3, CValue.int 1]) = true :=
  C9_amended [CValue.int 3, CValue.int 1] (List.cons_ne_nil _ _) rfl

/-! Slicing.  `get_slice` of `cordy-sys/src/core/collections.rs` (lines
80-129) is the common implementation for lists, vectors and strings; the
legacy `list_slice` of `src/stdlib/lib_list.rs` (lines 34-67) is the earlier
list-only implementation. -/

/-- `to_index` of `collections.rs` lines 122-129 and of `lib_list.rs` lines
70-77 (identical): a nonnegative operand is kept, a negative one is
translated by the length. -/
def to_index (len posOrNeg : Int) : Int :=
  if 0 ≤ posOrNeg then posOrNeg else len + posOrNeg

/-- Rust's `(lo..hi).step_by(s)` for `s > 0`: `lo, lo + s, ...` strictly
below `hi`. -/
def stepIndices (lo hi : Int) (s : Nat) : List Int :=
  (List.range (((hi - lo).toNat + s - 1) / s)).map (fun k : Nat => lo + (k : Int) * (s : Int))

/-- `rev_range(start, stop).step_by(s)` of `collections.rs` lines 131-143
and `lib_list.rs` lines 88-100: `start, start - s, ...` strictly above
`stop`. -/
def revStepIndices (start stop : Int) (s : Nat) : List Int :=
  (List.range (((start - stop).toNat + s - 1) / s)).map (fun k : Nat => start - (k : Int) * (s : Int))

/-- The `unwrap_or` helper inside `get_slice` (`collections.rs` lines
82-91): an `int` operand unwraps, `nil` takes the given default, anything
else raises `TypeErrorArgMustBeInt`. -/
def sliceUnwrapOr (v : CValue) (default : Int) : Except CErr Int :=
  match v with
  | .int n => .ok n
  | .nil => .ok default
  | v => .error (.typeErrorArgMustBeInt v)

/-- Modelled from the spec: `Slice::accept` (not under the staged sources)
appends the element at an absolute index and skips an index that is out of
bounds, matching the "yields exactly the elements at indices" reading of
spec section 4.6 and the `safe_get` filter of the legacy implementation. -/
def sliceAccept (elems : List CValue) (i : Int) : Option CValue :=
  if i < 0 then none else elems[i.toNat]?

/-- `get_slice` of `collections.rs` lines 80-119: the step defaults to 1 and
must be nonzero; a nil low defaults to `0` (positive step) or `-1`; a nil
high defaults to `len` (positive step) or `-len - 1`; operands are
translated by `to_index`; a positive step iterates `[low, high)` and a
negative step iterates the reverse-exclusive range. -/
def get_slice (elems : List CValue) (low high step : CValue) : Except CErr (List CValue) := do
  let length : Int := elems.length
  let step ← sliceUnwrapOr step 1
  if step = 0 then
    .error .valueErrorStepCannotBeZero
  else do
    let low ← sliceUnwrapOr low (if 0 < step then 0 else -1)
    let high ← sliceUnwrapOr high (if 0 < step then length else -length - 1)
    let absStart := to_index length low
    let absStop := to_index length high
    let absStep := step.natAbs
    let idxs :=
      if 0 < step then stepIndices absStart absStop absStep
      else revStepIndices absStart absStop absStep
    .ok (idxs.filterMap (sliceAccept elems))

/-- The `slice_arg!` macro of `lib_list.rs` lines 13-21: an `Int` operand
unwraps, `Nil` takes the default, anything else raises
`TypeErrorSliceArgMustBeInt` with the operand's name. -/
def sliceArg (v : Value) (argName : String) (default : Int) : Except RErr Int :=
  match v with
  | .int x => .ok x
  | .nil => .ok default
  | t => .error (.typeErrorSliceArgMustBeInt argName t)

/-- `safe_get` of `lib_list.rs` lines 79-86. -/
def safeGet (xs : List Value) (i : Int) : Option Value :=
  if i < 0 then none else xs[i.toNat]?

/-- `list_slice` of `lib_list.rs` lines 34-67.  Unlike `get_slice`, its nil
high defaults to `0` for a positive step, and the positive-step branch
iterates the inclusive range `abs_start ..= to_index(len, high - 1)`. -/
def list_slice (a1 a2 a3 a4 : Value) : Except RErr Value := do
  match a1 with
  | .list xs => do
      let length : Int := xs.length
      let step ← sliceArg a4 "step" 1
      if step = 0 then
        .error .sliceStepZero
      else do
        let low ← sliceArg a2 "low" (if 0 < step then 0 else -1)
        let high ← sliceArg a3 "high" (if 0 < step then 0 else -length - 1)
        let absStart := to_index length low
        let absStep := step.natAbs
        if 0 < step then
          let absStop := to_index length (high - 1)
          .ok (.list ((stepIndices absStart (absStop + 1) absStep).filterMap (safeGet xs)))
        else
          let absStop := to_index length high
          .ok (.list ((revStepIndices absStart absStop absStep).filterMap (safeGet xs)))
  | t => .error (.typeErrorCannotSlice t)

example : get_slice [.int 1, .int 2, .int 3, .int 4] .nil .nil .nil =
    .ok [.int 1, .int 2, .int 3, .int 4] := rfl
example : get_slice [.int 1, .int 2, .int 3, .int 4] .nil .nil (.int 2) =
    .ok [.int 1, .int 3] := rfl
example : get_slice [.int 1, .int 2, .int 3, .int 4] .nil .nil (.int (-1)) =
    .ok [.int 4, .int 3, .int 2, .int 1] := rfl
example : get_slice [.int 1, .int 2, .int 3, .int 4] (.int 1) (.int 3) .nil =
    .ok [.int 2, .int 3] := rfl
example : get_slice [.int 1, .int 2, .int 3, .int 4] (.int (-3)) .nil .nil =
    .ok [.int 2, .int 3, .int 4] := rfl
example : get_slice [.int 1] .nil .nil (.int 0) =
    .error .valueErrorStepCannotBeZero := rfl
example : list_slice (.list [.int 1, .int 2, .int 3, .int 4]) .nil .nil .nil =
    .ok (.list [.int 1, .int 2, .int 3, .int 4]) := rfl
example : list_slice (.list [.int 1, .int 2, .int 3, .int 4]) (.int 1) (.int 3) .nil =
    .ok (.list [.int 2, .int 3]) := rfl

/-- C6: the claim's positive-step contract ("exactly the elements at indices
in `[low, high)`", after defaults and translation) holds of `get_slice` but
fails on the legacy `list_slice`: with an explicit `high = 0` and step 1, the
claim demands the empty slice, `get_slice` returns it, but `list_slice`'s
inclusive-range encoding (`abs_start ..= to_index(len, high - 1)`) wraps
`high - 1 = -1` to `len - 1` and returns the whole list. -/
theorem C6_list_slice_high_zero_failing_input :
    list_slice (.list [.int 42]) .nil (.int 0) .nil = .ok (.list [.int 42]) ∧
      get_slice [.int 42] .nil (.int 0) .nil = .ok [] :=
  ⟨rfl, rfl⟩

theorem filterMap_range_getElem (xs : List CValue) :
    (List.range xs.length).filterMap (fun k => xs[k]?) = xs := by
  induction xs with
  | nil => rfl
  | cons x tail ih =>
      rw [List.length_cons, List.range_succ_eq_map, List.filterMap_cons,
        List.filterMap_map]
      simp only [List.getElem?_cons_zero]
      congr 1
      calc List.filterMap ((fun k => (x :: tail)[k]?) ∘ Nat.succ)
            (List.range tail.length)
          = List.filterMap (fun k => tail[k]?) (List.range tail.length) := by
            apply List.filterMap_congr; intro k _; simp
        _ = tail := ih

/-- The all-default slice is the identity: `get_slice` with nil operands
copies the target, exhibiting the specified defaults `low = 0`, `high = len`
and `step = 1` of spec section 4.6. -/
theorem get_slice_defaults_copy (elems : List CValue) :
    get_slice elems .nil .nil .nil = .ok elems := by
  show Except.ok ((stepIndices (to_index elems.length 0)
      (to_index elems.length elems.length) (1 : Int).natAbs).filterMap
      (sliceAccept elems)) = Except.ok elems
  have h0 : to_index elems.length 0 = 0 := rfl
  have hlen : to_index elems.length elems.length = (elems.length : Int) := by
    simp [to_index]
  rw [h0, hlen]
  have hcount : (((elems.length : Int) - 0).toNat + (1 : Int).natAbs - 1) /
      (1 : Int).natAbs = elems.length := by
    simp
  unfold stepIndices
  rw [hcount]
  congr 1
  rw [List.filterMap_map]
  calc List.filterMap
        (sliceAccept elems ∘ fun k : Nat => 0 + (k : Int) * ((1 : Int).natAbs : Int))
        (List.range elems.length)
      = List.filterMap (fun k => elems[k]?) (List.range elems.length) := by
        apply List.filterMap_congr; intro k _
        simp [sliceAccept]
    _ = elems := filterMap_range_getElem elems

/-! The `%`-style string formatter, `StringFormatter` of
`cordy-sys/src/core/strings.rs` lines 213-311.  The character loop is
embedded with explicit fuel (one unit per loop iteration; every iteration
consumes at least one character, so `length + 1` units always suffice and
`fuelExhausted` is unreachable from `format_string`). -/

/-- Left padding with a fill character up to a width (Rust's right-aligned
formatting of numbers). -/
def padLeftChar (c : Char) (w : Nat) (s : String) : String :=
  String.mk (List.replicate (w - s.length) c) ++ s

/-- Right padding with a fill character up to a width (Rust's left-aligned
formatting of strings). -/
def padRightChar (c : Char) (w : Nat) (s : String) : String :=
  s ++ String.mk (List.replicate (w - s.length) c)

/-- Rust's `format!` of an `i64` with a width: right-aligned with spaces, or
sign-aware zero padding under the `0` flag. -/
def fmtIntPad (zero : Bool) (w : Nat) (n : Int) : String :=
  if zero then
    if n < 0 then "-" ++ padLeftChar '0' (w - 1) (toString n.natAbs)
    else padLeftChar '0' w (toString n)
  else padLeftChar ' ' w (toString n)

/-- The `u64` bit pattern of an `i64` (Rust's `LowerHex`/`Binary` render the
two's complement). -/
def u64Bits (n : Int) : Nat := (if 0 ≤ n then n else n + 2 ^ 64).toNat

/-- Rust's `{:x}` rendering of an `i64`. -/
def hexString (n : Int) : String := String.mk (Nat.toDigits 16 (u64Bits n))

/-- Rust's `{:b}` rendering of an `i64`. -/
def binString (n : Int) : String := String.mk (Nat.toDigits 2 (u64Bits n))

/-- Right-aligned padding of an already-rendered digit string: spaces, or
zeros under the `0` flag. -/
def fmtDigitsPad (zero : Bool) (w : Nat) (s : String) : String :=
  if zero then padLeftChar '0' w s else padLeftChar ' ' w s

/-- The width-parsing loop of `StringFormatter::run` (`strings.rs` lines
257-275): digits `1`-`9` always extend the buffer; `0` extends it only when
it is nonempty and otherwise raises `ValueErrorInvalidFormatCharacter('0')`;
any other character stops the loop unconsumed.  An empty buffer parses as
width 0. -/
def parseWidth (hasDigits : Bool) (acc : Nat) :
    List Char → Except CErr (Nat × List Char)
  | c :: rest =>
      if '1' ≤ c ∧ c ≤ '9' then
        parseWidth true (acc * 10 + (c.toNat - '0'.toNat)) rest
      else if c = '0' then
        if hasDigits then parseWidth true (acc * 10) rest
        else .error (.valueErrorInvalidFormatCharacter (some '0'))
      else .ok (acc, c :: rest)
  | [] => .ok (acc, [])

/-- `StringFormatter::arg` (`strings.rs` lines 305-310): the next argument,
or `ValueErrorMissingRequiredArgumentInStringFormatting`. -/
def formatterArg : List CValue → Except CErr (CValue × List CValue)
  | v :: rest => .ok (v, rest)
  | [] => .error .valueErrorMissingRequiredArgument

/-- The main loop of `StringFormatter::run` (`strings.rs` lines 239-300).
`%%` emits a literal percent; a specifier reads an optional `0` flag, a
width, and one of `d`, `x`, `b`, `s`; any other specifier character raises
`ValueErrorInvalidFormatCharacter`.  The source's `%s` arms swap the flag:
`(Some('s'), true)` formats with `{:width$}` (space padding) and
`(Some('s'), false)` with `{:0width$}` (zero padding) — the embedding keeps
that swap faithfully.  After the loop, a remaining argument raises
`ValueErrorNotAllArgumentsUsedInStringFormatting`. -/
def fmtRun : Nat → List Char → List CValue → String → Except CErr String
  | 0, _, _, _ => .error .fuelExhausted
  | _ + 1, [], args, out =>
      match args with
      | [] => .ok out
      | e :: _ => .error (.valueErrorNotAllArgumentsUsed e)
  | fuel + 1, '%' :: rest, args, out =>
      match rest with
      | '%' :: rest2 => fmtRun fuel rest2 args (out.push '%')
      | _ =>
          let flagged : Bool × List Char :=
            match rest with
            | '0' :: r => (true, r)
            | _ => (false, rest)
          match parseWidth false 0 flagged.2 with
          | .error e => .error e
          | .ok (padding, rest3) =>
              match rest3 with
              | 'd' :: rest4 => do
                  let (v, args2) ← formatterArg args
                  let n ← check_int v
                  fmtRun fuel rest4 args2 (out ++ fmtIntPad flagged.1 padding n)
              | 'x' :: rest4 => do
                  let (v, args2) ← formatterArg args
                  let n ← check_int v
                  fmtRun fuel rest4 args2
                    (out ++ fmtDigitsPad flagged.1 padding (hexString n))
              | 'b' :: rest4 => do
                  let (v, args2) ← formatterArg args
                  let n ← check_int v
                  fmtRun fuel rest4 args2
                    (out ++ fmtDigitsPad flagged.1 padding (binString n))
              | 's' :: rest4 => do
                  let (v, args2) ← formatterArg args
                  fmtRun fuel rest4 args2
                    (out ++ (if flagged.1 then padRightChar ' ' padding v.to_str
                             else padRightChar '0' padding v.to_str))
              | c => .error (.valueErrorInvalidFormatCharacter c.head?)
  | fuel + 1, c :: rest, args, out => fmtRun fuel rest args (out.push c)

/-- `format_string` / `StringFormatter::format` (`strings.rs` lines
213-237).  The argument value's `as_iter_or_unit` iterator is modelled as
the explicit list of arguments. -/
def format_string (literal : String) (args : List CValue) : Except CErr String :=
  fmtRun (literal.length + 1) literal.data args ""

example : format_string "a%%b" [] = .ok "a%b" := rfl
example : format_string "%d-%d" [.int 3, .int (-4)] = .ok "3--4" := rfl
example : format_string "%x" [.int 255] = .ok "ff" := rfl
example : format_string "%05x" [.int 255] = .ok "000ff" := rfl
example : format_string "%b" [.int 5] = .ok "101" := rfl
example : format_string "%05d" [.int (-42)] = .ok "-0042" := rfl
example : format_string "%q" [] =
    .error (.valueErrorInvalidFormatCharacter (some 'q')) := rfl
example : format_string "%d" [] = .error .valueErrorMissingRequiredArgument := rfl
example : format_string "a" [.int 1] =
    .error (.valueErrorNotAllArgumentsUsed (.int 1)) := rfl
example : format_string "%00d" [.int 1] =
    .error (.valueErrorInvalidFormatCharacter (some '0')) := rfl

/-- C8: the `%s` specifier's padding flag is inverted.  The claim (and the
`%d`/`%x`/`%b` arms) demand space padding without the `0` flag and zero
padding with it, but `%5s` of `"ab"` zero-pads to `"ab000"` and `%05s`
space-pads to `"ab   "`; for `%d` the flag behaves as claimed. -/
theorem C8_format_s_pad_flag_inverted :
    format_string "%5s" [.str "ab"] = .ok "ab000" ∧
      format_string "%05s" [.str "ab"] = .ok "ab   " ∧
      format_string "%5d" [.int 42] = .ok "   42" ∧
      format_string "%05d" [.int 42] = .ok "00042" :=
  ⟨rfl, rfl, rfl, rfl⟩

/-! The expression optimizer, `Expr::optimize` of
`src/compiler/parser/optimizer.rs`.  The expression fragment embedded here
covers the claims on constant folding and partial-call merging: the five
constant terminals of `as_constant`, error nodes, native-function terminals,
unary and binary operators, calls and unroll markers.  `Compose`, literals,
conditionals and assignments are outside the embedded fragment. -/

/-- The built-in functions used by the optimizer claims (`core::NativeFunction`
is not under the staged sources; the declared arities follow the spec and the
optimizer's own unit tests: `map` has arity 2, `int` arity 1, `vector`, `min`
and `max` are variadic, and `OperatorAdd` is the standard binary `+` with
arity 2). -/
inductive NativeFunction
  | map
  | vector
  | int
  | min
  | max
  | operatorAdd
deriving DecidableEq, Repr

/-- Modelled from the spec: `NativeFunction::nargs` (declared arity;
`none` is "variadic"). -/
def nargsOf : NativeFunction → Option Nat
  | .map => some 2
  | .vector => none
  | .int => some 1
  | .min => none
  | .max => none
  | .operatorAdd => some 2

/-- Modelled from the spec: `NativeFunction::as_standard_binary_operator`
(`is_standard_binary_operator` is its `isSome`). -/
def asStandardBinaryOperator : NativeFunction → Option BinaryOp
  | .operatorAdd => some .Add
  | _ => none

/-- The expression tree fragment of `ExprType` that the optimizer claims
range over. -/
inductive Expr
  | nilE
  | boolE (b : Bool)
  | intE (n : Int)
  | complexE (re im : Int)
  | strE (s : String)
  | errorE (e : CErr)
  | nativeE (f : NativeFunction)
  | unaryE (op : UnaryOp) (arg : Expr)
  | binaryE (op : BinaryOp) (lhs rhs : Expr)
  | evalE (f : Expr) (args : List Expr) (anyUnroll : Bool)
  | unrollE (arg : Expr) (first : Bool)
deriving Repr

/-- `Expr::as_constant` of `optimizer.rs` lines 163-177: exactly the five
scalar terminals fold to a constant; every other node is returned unchanged
(modelled by `none`). -/
def asConstant : Expr → Option CValue
  | .nilE => some .nil
  | .boolE b => some (.bool b)
  | .intE n => some (.int n)
  | .complexE re im => some (.complex re im)
  | .strE s => some (.str s)
  | _ => none

/-- `Expr::value`: the constant node carrying a scalar value. -/
def ofValue : CValue → Expr
  | .nil => .nilE
  | .bool b => .boolE b
  | .int n => .intE n
  | .complex re im => .complexE re im
  | .str s => .strE s

/-- `Expr::value_result`: a successful compile-time evaluation becomes a
constant node, a failing one becomes a `RuntimeError` node that raises
unconditionally at that location. -/
def valueResult : Except CErr CValue → Expr
  | .ok v => ofValue v
  | .error e => .errorE e

/-- Modelled from the spec: `UnaryOp::apply` (not under the staged sources);
the scalar semantics follow spec section 4.1 and the operator functions of
`vm/operator.rs`. -/
def applyUnary (op : UnaryOp) (v : CValue) : Except CErr CValue :=
  match op, v with
  | .Neg, .int n => .ok (.int (-n))
  | .LogicalNot, .bool b => .ok (.bool (!b))
  | .BitwiseNot, .int n => .ok (.int (-n - 1))
  | op, v => .error (.typeErrorUnaryOp op v)

/-- Modelled from the spec: `BinaryOp::apply` (not under the staged
sources); the scalar semantics follow spec section 4.1 and the operator
functions of `vm/operator.rs` (`+` coerces a string operand, `*` repeats,
`/` is the operator module's floor division, `%` the Euclidean remainder for
a positive modulus, `**` requires a positive exponent).  The logical `And`
and `Or` tags are jump-compiled, never applied. -/
def applyBinary (op : BinaryOp) (l r : CValue) : Except CErr CValue :=
  match op, l, r with
  | .Add, .int a, .int b => .ok (.int (a + b))
  | .Add, .str s1, r => .ok (.str (s1 ++ r.to_str))
  | .Add, l, .str s2 => .ok (.str (l.to_str ++ s2))
  | .Sub, .int a, .int b => .ok (.int (a - b))
  | .Mul, .int a, .int b => .ok (.int (a * b))
  | .Mul, .str s1, .int b =>
      if 0 < b then .ok (.str (strRepeat s1 b.toNat))
      else .error (.typeErrorBinaryOp .Mul (.str s1) (.int b))
  | .Mul, .int a, .str s2 =>
      if 0 < a then .ok (.str (strRepeat s2 a.toNat))
      else .error (.typeErrorBinaryOp .Mul (.int a) (.str s2))
  | .Div, .int a, .int b =>
      if b ≠ 0 then
        .ok (.int (if b < 0 then -(Int.ediv (-a) b) else Int.ediv a b))
      else .error (.typeErrorBinaryOp .Div (.int a) (.int b))
  | .Mod, .int a, .int b =>
      if 0 < b then .ok (.int (Int.emod a b))
      else .error (.typeErrorBinaryOp .Mod (.int a) (.int b))
  | .Pow, .int a, .int b =>
      if 0 < b then .ok (.int (a ^ b.toNat))
      else .error (.typeErrorBinaryOp .Pow (.int a) (.int b))
  | op, l, r => .error (.typeErrorBinaryOp op l r)

/-- `i64::MIN`, the value of the `min(int)` fold. -/
def i64Min : Int := -(2 ^ 63)

/-- `i64::MAX`, the value of the `max(int)` fold. -/
def i64Max : Int := 2 ^ 63 - 1

/-- `Expr::is_partial` of `optimizer.rs` lines 212-220: the callee is a
`NativeFunction` whose declared arity is known and strictly greater than the
supplied argument count. -/
def isPartialNative (f : Expr) (n : Nat) : Bool :=
  match f with
  | .nativeE nf =>
      match nargsOf nf with
      | some k => decide (n < k)
      | none => false
  | _ => false

/-- The `Unary` arm of `Expr::optimize` (`optimizer.rs` lines 36-42),
applied to the already-optimized operand. -/
def foldUnary (op : UnaryOp) (arg2 : Expr) : Expr :=
  match asConstant arg2 with
  | some v => valueResult (applyUnary op v)
  | none => .unaryE op arg2

/-- The `Binary` arm of `Expr::optimize` (`optimizer.rs` lines 44-55),
applied to the already-optimized operands: both constant folds at compile
time; only the left constant keeps its value node and the right stays; no
constant leaves the node intact. -/
def foldBinary (op : BinaryOp) (l2 r2 : Expr) : Expr :=
  match asConstant l2 with
  | some lv =>
      match asConstant r2 with
      | some rv => valueResult (applyBinary op lv rv)
      | none => .binaryE op (ofValue lv) r2
  | none => .binaryE op l2 r2

/-- The native-callee arms of the `Eval` match in `Expr::optimize`
(`optimizer.rs` lines 64-80): a standard binary operator applied to exactly
two arguments becomes the `Binary` node, `min(int)`/`max(int)` fold to the
`i64` bounds, anything else stays a call. -/
def optimizeNativeEval (nf : NativeFunction) (args : List Expr) (u : Bool) : Expr :=
  match asStandardBinaryOperator nf, args with
  | some op, [lhs, rhs] => .binaryE op lhs rhs
  | _, _ =>
      match nf, args with
      | .min, [.nativeE .int] => .intE i64Min
      | .max, [.nativeE .int] => .intE i64Max
      | _, _ => .evalE (.nativeE nf) args u

/-- The full `Eval` match of `Expr::optimize` (`optimizer.rs` lines 60-95),
applied to the already-optimized callee and arguments; `reopt` is the
re-optimization the merge arm performs on the merged call.  Note the merge
arm requires the *inner* call's unroll flag to be `false` and is indifferent
to the outer call's flag `u`, which the merged call keeps. -/
def optimizeEvalArm (f2 : Expr) (args2 : List Expr) (u : Bool)
    (reopt : Expr → Expr) : Expr :=
  match f2 with
  | .nativeE nf => optimizeNativeEval nf args2 u
  | .evalE fInner argsInner false =>
      if isPartialNative fInner argsInner.length then
        reopt (.evalE fInner (argsInner ++ args2) u)
      else .evalE (.evalE fInner argsInner false) args2 u
  | f2 => .evalE f2 args2 u

/-- `Expr::optimize` of `optimizer.rs`, embedded with explicit fuel: each
recursion level spends one unit, and exhausted fuel returns the tree
unchanged (every claim theorem either quantifies over all fuel or supplies
an adequate amount).  Terminals, error nodes and native functions return
themselves (the source's terminal and catch-all arms). -/
def optimizeF : Nat → Expr → Expr
  | 0, e => e
  | fuel + 1, e =>
      match e with
      | .unaryE op arg => foldUnary op (optimizeF fuel arg)
      | .binaryE op lhs rhs =>
          foldBinary op (optimizeF fuel lhs) (optimizeF fuel rhs)
      | .evalE f args u =>
          optimizeEvalArm (optimizeF fuel f) (args.map (optimizeF fuel)) u
            (optimizeF fuel)
      | .unrollE arg first => .unrollE (optimizeF fuel arg) first
      | e => e

/-- Modelled from the spec: runtime evaluation of the constant-operator
fragment (codegen emits the constants and `Unary(op)`/`Binary(op)`
instructions, and the VM applies the same pure operator functions, spec
sections 4.2 and 4.4); an error node raises unconditionally.  Call and
unroll nodes are outside the fragment and evaluate to the
`callUnsupported` placeholder, which no fragment theorem reaches. -/
def evalConstExpr : Expr → Except CErr CValue
  | .nilE => .ok .nil
  | .boolE b => .ok (.bool b)
  | .intE n => .ok (.int n)
  | .complexE re im => .ok (.complex re im)
  | .strE s => .ok (.str s)
  | .errorE e => .error e
  | .unaryE op arg => do
      let v ← evalConstExpr arg
      applyUnary op v
  | .binaryE op lhs rhs => do
      let lv ← evalConstExpr lhs
      let rv ← evalConstExpr rhs
      applyBinary op lv rv
  | .nativeE _ => .error .callUnsupported
  | .evalE _ _ _ => .error .callUnsupported
  | .unrollE _ _ => .error .callUnsupported

/-- The constant-operator fragment of the constant-folding claim: every
leaf reduces to a scalar constant via `as_constant` and every interior node
is a pure unary or binary operator. -/
def isConstOpTree : Expr → Bool
  | .nilE => true
  | .boolE _ => true
  | .intE _ => true
  | .complexE _ _ => true
  | .strE _ => true
  | .unaryE _ arg => isConstOpTree arg
  | .binaryE _ lhs rhs => isConstOpTree lhs && isConstOpTree rhs
  | _ => false

theorem asConstant_eval {e : Expr} {v : CValue} (h : asConstant e = some v) :
    evalConstExpr e = .ok v := by
  cases e <;> simp [asConstant] at h <;> simp [evalConstExpr, ← h]

theorem eval_ofValue (v : CValue) : evalConstExpr (ofValue v) = .ok v := by
  cases v <;> rfl

theorem eval_valueResult (r : Except CErr CValue) :
    evalConstExpr (valueResult r) = r := by
  cases r with
  | ok v => exact eval_ofValue v
  | error e => rfl

theorem eval_foldUnary (op : UnaryOp) (a : Expr) :
    evalConstExpr (foldUnary op a) = evalConstExpr (.unaryE op a) := by
  cases hc : asConstant a with
  | some v =>
      simp only [foldUnary, hc, eval_valueResult]
      show _ = (evalConstExpr a).bind (applyUnary op)
      rw [asConstant_eval hc]
      rfl
  | none => simp only [foldUnary, hc]

theorem eval_foldBinary (op : BinaryOp) (l r : Expr) :
    evalConstExpr (foldBinary op l r) = evalConstExpr (.binaryE op l r) := by
  cases hcl : asConstant l with
  | some lv =>
      cases hcr : asConstant r with
      | some rv =>
          simp only [foldBinary, hcl, hcr, eval_valueResult]
          show _ = (evalConstExpr l).bind fun lv2 =>
            (evalConstExpr r).bind fun rv2 => applyBinary op lv2 rv2
          rw [asConstant_eval hcl, asConstant_eval hcr]
          rfl
      | none =>
          simp only [foldBinary, hcl, hcr]
          show (evalConstExpr (ofValue lv)).bind _ = (evalConstExpr l).bind _
          rw [asConstant_eval hcl, eval_ofValue]
  | none => simp only [foldBinary, hcl]

/-- C3: constant folding is behaviour-preserving.  For every expression of
the constant-operator fragment (all leaves reduce to scalar constants via
`as_constant`, all operators pure), running the optimized tree gives
exactly the result of running the unoptimized tree — the same value, or the
same unconditional runtime error — for every fuel budget.  The fragment has
no side effects, so observable effects trivially agree. -/
theorem C3_constant_folding_preserves_eval (fuel : Nat) (e : Expr)
    (h : isConstOpTree e = true) :
    evalConstExpr (optimizeF fuel e) = evalConstExpr e := by
  induction fuel generalizing e with
  | zero => rfl
  | succ fuel ih =>
      cases e with
      | unaryE op arg =>
          have harg : isConstOpTree arg = true := by
            simpa [isConstOpTree] using h
          show evalConstExpr (foldUnary op (optimizeF fuel arg)) = _
          rw [eval_foldUnary]
          show (evalConstExpr (optimizeF fuel arg)).bind _ =
            (evalConstExpr arg).bind _
          rw [ih arg harg]
      | binaryE op lhs rhs =>
          have hl : isConstOpTree lhs = true := by
            have := h
            simp only [isConstOpTree, Bool.and_eq_true] at this
            exact this.1
          have hr : isConstOpTree rhs = true := by
            have := h
            simp only [isConstOpTree, Bool.and_eq_true] at this
            exact this.2
          show evalConstExpr
            (foldBinary op (optimizeF fuel lhs) (optimizeF fuel rhs)) = _
          rw [eval_foldBinary]
          show (evalConstExpr (optimizeF fuel lhs)).bind _ =
            (evalConstExpr lhs).bind _
          rw [ih lhs hl]
          refine congrArg _ (funext fun lv => ?_)
          show (evalConstExpr (optimizeF fuel rhs)).bind _ =
            (evalConstExpr rhs).bind _
          rw [ih rhs hr]
      | nilE => rfl
      | boolE b => rfl
      | intE n => rfl
      | complexE re im => rfl
      | strE s => rfl
      | errorE e => exact absurd h (by simp [isConstOpTree])
      | nativeE f => exact absurd h (by simp [isConstOpTree])
      | evalE f args u => exact absurd h (by simp [isConstOpTree])
      | unrollE arg first => exact absurd h (by simp [isConstOpTree])

/-- C3 (witness): the fragment membership and the equivalence at the
concrete expression `1 + 2` with fuel 5. -/
theorem C3_constant_folding_witness :
    evalConstExpr (optimizeF 5 (.binaryE .Add (.intE 1) (.intE 2))) =
      evalConstExpr (.binaryE .Add (.intE 1) (.intE 2)) :=
  C3_constant_folding_preserves_eval 5 (.binaryE .Add (.intE 1) (.intE 2)) rfl

example : optimizeF 5 (.binaryE .Add (.intE 1) (.intE 2)) = .intE 3 := rfl
example : optimizeF 5 (.binaryE .Div (.intE 1) (.intE 0)) =
    .errorE (.typeErrorBinaryOp .Div (.int 1) (.int 0)) := rfl
example : optimizeF 5 (.binaryE .Add (.strE "a") (.intE 3)) = .strE "a3" := rfl

/-! Partial-call merging (C5).  The repository's own optimizer tests pin the
behaviour: `map(1)(...2)` disassembles to the single call
`Map Int(1) Int(2) Unroll Call...(2)` — merged although the outer call
unrolls. -/

theorem optimizeNativeEval_map (args : List Expr) (u : Bool) :
    optimizeNativeEval .map args u = .evalE (.nativeE .map) args u := by
  cases args with
  | nil => rfl
  | cons a t =>
      cases t with
      | nil => rfl
      | cons b t2 =>
          cases t2 with
          | nil => rfl
          | cons c t3 => rfl

theorem optimizeF_intE (k : Nat) (n : Int) : optimizeF k (.intE n) = .intE n := by
  cases k <;> rfl

theorem optimizeF_nativeE (k : Nat) (nf : NativeFunction) :
    optimizeF k (.nativeE nf) = .nativeE nf := by
  cases k <;> rfl

theorem optimizeF_map_ints (l : List Int) (k : Nat) :
    (l.map Expr.intE).map (optimizeF k) = l.map Expr.intE := by
  rw [List.map_map]
  apply List.map_congr_left
  intro a _
  exact optimizeF_intE k a

theorem optimizeF_eval_succ (k : Nat) (f : Expr) (args : List Expr) (u : Bool) :
    optimizeF (k + 1) (.evalE f args u) =
      optimizeEvalArm (optimizeF k f) (args.map (optimizeF k)) u
        (optimizeF k) := rfl

theorem optimizeF_eval_native_map (k : Nat) (l : List Int) (u : Bool) :
    optimizeF (k + 1) (.evalE (.nativeE .map) (l.map Expr.intE) u) =
      .evalE (.nativeE .map) (l.map Expr.intE) u := by
  rw [optimizeF_eval_succ, optimizeF_nativeE, optimizeF_map_ints]
  exact optimizeNativeEval_map _ u

theorem optimizeEvalArm_eval_false (fInner : Expr) (argsInner args2 : List Expr)
    (u : Bool) (reopt : Expr → Expr) :
    optimizeEvalArm (.evalE fInner argsInner false) args2 u reopt =
      if isPartialNative fInner argsInner.length then
        reopt (.evalE fInner (argsInner ++ args2) u)
      else .evalE (.evalE fInner argsInner false) args2 u := rfl

/-- C5 (counterexample): the claim demands that the two calls stay separate
whenever the outer call uses unrolling, but on `map(1)(...2)` — inner callee
`map` of declared arity 2 with one argument, inner call not unrolled, outer
call unrolled — the optimizer merges into the single call
`map(1, ...2)` (keeping the outer unroll flag), exactly as the repository's
own disassembly test records. -/
theorem C5_outer_unroll_counterexample :
    optimizeF 4 (.evalE (.evalE (.nativeE .map) [.intE 1] false)
        [.unrollE (.intE 2) true] true) =
      .evalE (.nativeE .map) [.intE 1, .unrollE (.intE 2) true] true ∧
      (Expr.evalE (.nativeE .map) [.intE 1, .unrollE (.intE 2) true] true ≠
        .evalE (.evalE (.nativeE .map) [.intE 1] false)
          [.unrollE (.intE 2) true] true) :=
  ⟨rfl, by
    intro h
    injection h with h1 h2 h3
    exact Expr.noConfusion h1⟩

/-- C5 (amended): for a nested call of the native `map` (declared arity 2)
on integer-literal arguments, the optimizer merges exactly when the inner
call does not use unrolling and the inner argument count is below the
declared arity; the outer call's unroll flag does not matter and is kept by
the merged call.  Otherwise the two calls stay separate (with the subtrees
optimized). -/
theorem C5_partial_call_merge_amended (iu ou : Bool) (inNs outNs : List Int) :
    optimizeF 4 (.evalE (.evalE (.nativeE .map) (inNs.map Expr.intE) iu)
        (outNs.map Expr.intE) ou) =
      if iu = false ∧ inNs.length < 2 then
        .evalE (.nativeE .map) ((inNs ++ outNs).map Expr.intE) ou
      else
        .evalE (.evalE (.nativeE .map) (inNs.map Expr.intE) iu)
          (outNs.map Expr.intE) ou := by
  rw [show (4 : Nat) = 3 + 1 from rfl, optimizeF_eval_succ,
    optimizeF_eval_native_map, optimizeF_map_ints]
  cases iu with
  | true => simp [optimizeEvalArm]
  | false =>
      rw [optimizeEvalArm_eval_false]
      simp only [Bool.false_eq_true, true_and, List.length_map]
      by_cases hlen : inNs.length < 2
      · rw [if_pos (by simp [isPartialNative, nargsOf, hlen]), if_pos hlen]
        rw [show (inNs.map Expr.intE ++ outNs.map Expr.intE) =
          (inNs ++ outNs).map Expr.intE from (List.map_append ..).symm]
        exact optimizeF_eval_native_map 2 (inNs ++ outNs) ou
      · rw [if_neg (by simp [isPartialNative, nargsOf, hlen]), if_neg hlen]

example : optimizeF 4 (.evalE (.evalE (.nativeE .map) [.intE 1] false)
    [.intE 2] false) = .evalE (.nativeE .map) [.intE 1, .intE 2] false := rfl
example : optimizeF 6 (.evalE (.evalE (.evalE (.nativeE .int) [] false)
      [.intE 1] false) [.intE 2] false) =
    .evalE (.evalE (.nativeE .int) [.intE 1] false) [.intE 2] false := rfl
example : optimizeF 3 (.evalE (.nativeE .min) [.nativeE .int] false) =
    .intE i64Min := rfl
example : optimizeF 3 (.evalE (.nativeE .max) [.nativeE .int] false) =
    .intE i64Max := rfl
example : optimizeF 5 (.evalE (.evalE (.nativeE .operatorAdd) [.intE 1] false)
    [.intE 2] false) = .binaryE .Add (.intE 1) (.intE 2) := rfl
example : optimizeF 3 (.evalE (.nativeE .operatorAdd) [.intE 1, .intE 2] false) =
    .binaryE .Add (.intE 1) (.intE 2) := rfl
example : optimizeF 4 (.evalE (.evalE (.nativeE .vector) [] false)
    [.intE 1] false) =
    .evalE (.evalE (.nativeE .vector) [] false) [.intE 1] false := rfl

/-! The recursive-hash guard (C7).  Hashing on the native reference types
consults a process-wide re-entrancy set keyed by object identity
(`vm::guard_recursive_hash`, not under the staged sources); `push` on a set
(`collections.rs` lines 470-486) and `set_index` on a dict (`collections.rs`
lines 62-74) surface a tripped guard as `ValueErrorRecursiveHash`.  The heap
of native containers is modelled as an association list from identities to
element lists, and structural hashing as a recursion that enters an identity
before hashing its elements and leaves it afterwards (the functional
`visited` argument models the enter/remove discipline of the re-entrancy
set). -/

/-- A containment-graph value: a scalar, or a reference to a container
identity. -/
inductive RValue
  | int (n : Int)
  | ref (id : Nat)
deriving DecidableEq, Repr

/-- The heap of native containers: identity to contained values. -/
abbrev Store := List (Nat × List RValue)

/-- The single failure mode of structural hashing. -/
inductive HashErr
  | recursiveHash
deriving DecidableEq, Repr

/-- How many container identities are not yet in the re-entrancy set — the
termination measure of structural hashing. -/
def unvisitedCount (ids : List Nat) (visited : List Nat) : Nat :=
  (ids.filter (fun i => decide (i ∉ visited))).length

theorem unvisitedCount_cons_lt {ids visited : List Nat} {id : Nat}
    (hmem : id ∈ ids) (hvis : id ∉ visited) :
    unvisitedCount ids (id :: visited) < unvisitedCount ids visited := by
  unfold unvisitedCount
  induction ids with
  | nil => cases hmem
  | cons a t ih =>
      have hmono :
          (t.filter (fun i => decide (i ∉ id :: visited))).length ≤
            (t.filter (fun i => decide (i ∉ visited))).length := by
        rw [← List.countP_eq_length_filter, ← List.countP_eq_length_filter]
        apply List.countP_mono_left
        intro x _ hx
        have hx2 := of_decide_eq_true hx
        exact decide_eq_true (fun hc => hx2 (List.mem_cons_of_mem _ hc))
      rcases List.mem_cons.mp hmem with rfl | hmem2
      · rw [List.filter_cons, List.filter_cons]
        rw [if_neg (fun h => (of_decide_eq_true h) (List.mem_cons_self id visited)),
          if_pos (decide_eq_true hvis)]
        simp only [List.length_cons]
        omega
      · rw [List.filter_cons, List.filter_cons]
        have ht := ih hmem2
        by_cases ha : a ∈ id :: visited
        · rw [if_neg (fun h => (of_decide_eq_true h) ha)]
          by_cases hb : a ∈ visited
          · rw [if_neg (fun h => (of_decide_eq_true h) hb)]
            exact ht
          · rw [if_pos (decide_eq_true hb)]
            simp only [List.length_cons]
            omega
        · have hb : a ∉ visited := fun hb => ha (List.mem_cons_of_mem _ hb)
          rw [if_pos (decide_eq_true ha), if_pos (decide_eq_true hb)]
          simp only [List.length_cons]
          omega

theorem lookup_mem_ids {store : Store} {id : Nat} {elems : List RValue}
    (h : List.lookup id store = some elems) : id ∈ store.map Prod.fst := by
  induction store with
  | nil => cases h
  | cons p t ih =>
      rw [List.lookup] at h
      by_cases he : id = p.1
      · simp [he]
      · have hne : (id == p.1) = false := by simp [he]
        rw [hne] at h
        simp only [List.map_cons, List.mem_cons]
        exact Or.inr (ih h)

mutual

/-- Modelled from the spec: structural hashing of a value under the
identity-keyed re-entrancy set.  Re-entering an identity already in the set
raises the recursion error; otherwise the identity is entered, the
container's elements are hashed in order, and the set reverts on return
(functional argument passing).  A dangling identity hashes to a constant;
the hash-combination function is immaterial to the claims. -/
def hashRV (store : Store) (visited : List Nat) : RValue → Except HashErr Int
  | .int n => .ok n
  | .ref id =>
      if hv : id ∈ visited then .error .recursiveHash
      else
        match hl : List.lookup id store with
        | none => .ok 0
        | some elems => hashList store (id :: visited) elems
termination_by v => (unvisitedCount (store.map Prod.fst) visited, sizeOf v)
decreasing_by
  apply Prod.Lex.left
  exact unvisitedCount_cons_lt (lookup_mem_ids hl) hv

/-- Structural hashing of a container's elements in order, short-circuiting
on the first error. -/
def hashList (store : Store) (visited : List Nat) :
    List RValue → Except HashErr Int
  | [] => .ok 0
  | x :: xs => do
      let h ← hashRV store visited x
      let t ← hashList store visited xs
      .ok (h + 31 * t)
termination_by l => (unvisitedCount (store.map Prod.fst) visited, sizeOf l)
decreasing_by
  · apply Prod.Lex.right
    simp only [sizeOf, List._sizeOf_1]
    omega
  · apply Prod.Lex.right
    simp only [sizeOf, List._sizeOf_1]
    omega

end

/-- Direct containment: container `a` holds a reference to container `b`. -/
def containsRef (store : Store) (a b : Nat) : Prop :=
  ∃ elems, List.lookup a store = some elems ∧ RValue.ref b ∈ elems

/-- Transitive containment along one or more direct-containment steps;
`Reaches store id id` says the container transitively contains itself. -/
inductive Reaches (store : Store) : Nat → Nat → Prop
  | single {a b : Nat} : containsRef store a b → Reaches store a b
  | head {a b c : Nat} : containsRef store a b → Reaches store b c →
      Reaches store a c

theorem hashList_mem_err {store : Store} {vis : List Nat} {elems : List RValue}
    {b : Nat} (hmem : RValue.ref b ∈ elems)
    (herr : hashRV store vis (.ref b) = .error .recursiveHash) :
    hashList store vis elems = .error .recursiveHash := by
  induction elems with
  | nil => cases hmem
  | cons x xs ih =>
      rw [hashList]
      rcases List.mem_cons.mp hmem with rfl | hmem2
      · rw [herr]
        rfl
      · cases hx : hashRV store vis x with
        | error e =>
            cases e
            rfl
        | ok h =>
            show (hashList store vis xs).bind _ = _
            rw [ih hmem2]
            rfl

/-- Hashing a reference that can reach a member of the current re-entrancy
set (itself included) trips the guard. -/
theorem hash_err_of_reaches {store : Store} {a b : Nat} {visited : List Nat}
    (hr : Reaches store a b) :
    b ∈ a :: visited → hashRV store visited (.ref a) = .error .recursiveHash := by
  induction hr generalizing visited with
  | @single a2 b2 hc =>
      intro hb
      obtain ⟨elems, hl, hm⟩ := hc
      rw [hashRV]
      by_cases hv : a2 ∈ visited
      · rw [dif_pos hv]
      · rw [dif_neg hv]
        split
        · next heq =>
            rw [hl] at heq
            cases heq
        · next elems2 heq =>
            rw [hl] at heq
            injection heq with heq2
            subst heq2
            apply hashList_mem_err hm
            rw [hashRV]
            rw [dif_pos hb]
  | @head a2 b2 c2 hc hr2 ih =>
      intro hb
      obtain ⟨elems, hl, hm⟩ := hc
      rw [hashRV]
      by_cases hv : a2 ∈ visited
      · rw [dif_pos hv]
      · rw [dif_neg hv]
        split
        · next heq =>
            rw [hl] at heq
            cases heq
        · next elems2 heq =>
            rw [hl] at heq
            injection heq with heq2
            subst heq2
            apply hashList_mem_err hm
            exact ih (List.mem_cons_of_mem _ hb)

/-- The Set arm of `push` (`collections.rs` lines 476-479):
`guard_recursive_hash(|| set.insert(value))` hashes the pushed value inside
the guard and surfaces a tripped guard as `ValueErrorRecursiveHash`; on
success the set mutation is irrelevant to the claim and elided. -/
def pushSetGuard (store : Store) (value : RValue) : Except CErr Unit :=
  match hashRV store [] value with
  | .error _ => .error .valueErrorRecursiveHash
  | .ok _ => .ok ()

/-- The Dict arm of `set_index` (`collections.rs` lines 63-67):
`guard_recursive_hash(|| dict.insert(index, value))` hashes the key inside
the guard and surfaces a tripped guard as `ValueErrorRecursiveHash`. -/
def setIndexGuard (store : Store) (index : RValue) : Except CErr Unit :=
  match hashRV store [] index with
  | .error _ => .error .valueErrorRecursiveHash
  | .ok _ => .ok ()

/-- C7: for every container that transitively contains itself, hashing it —
pushing it into a set, or inserting it as a dict key — trips the
identity-keyed re-entrancy guard and raises `ValueErrorRecursiveHash` (the
recursion bottoms out at the guard instead of recursing forever). -/
theorem C7_recursive_hash_guard (store : Store) (id : Nat)
    (h : Reaches store id id) :
    pushSetGuard store (.ref id) = .error .valueErrorRecursiveHash ∧
      setIndexGuard store (.ref id) = .error .valueErrorRecursiveHash := by
  have herr := hash_err_of_reaches h (List.mem_cons_self id [])
  unfold pushSetGuard setIndexGuard
  rw [herr]
  exact ⟨rfl, rfl⟩

/-- C7 (witness): the spec's own scenario — `L = []; push(L, L)` makes a
list that directly contains itself (heap: identity 0 holds `[ref 0]`), and
pushing it into a set or storing it as a dict key raises
`ValueErrorRecursiveHash`. -/
theorem C7_recursive_hash_witness :
    pushSetGuard [(0, [RValue.ref 0])] (.ref 0) =
        .error .valueErrorRecursiveHash ∧
      setIndexGuard [(0, [RValue.ref 0])] (.ref 0) =
        .error .valueErrorRecursiveHash :=
  C7_recursive_hash_guard [(0, [RValue.ref 0])] 0
    (Reaches.single ⟨[RValue.ref 0], rfl, by simp⟩)

end Cordy
